import Mathlib

/-!
Shallow embedding of starfield.py (repository davidyarbrough/starfield-generator).

The program generates a starfield raster image.  Its core is the class
StarfieldGenerator with the methods

  * parse_background         — hex-color / image background parsing,
  * generate_star_brightness — bounded-Pareto inverse-CDF brightness sampling,
  * draw_star                — glyph pass (PIL point / ellipse drawing),
  * draw_diffraction_spikes  — additive spike compositing on a numpy buffer,
  * generate                 — orchestration (sampling, two rendering passes).

Python floats are modelled exactly by the rationals wherever the program
manipulates concrete pixel arithmetic (every value a float can hold is a
rational), and by the reals for the brightness sampler, whose formula uses
real exponents.  The pixel buffer (the numpy img_array) is modelled as a
total function from integer coordinates to RGB triples of integers; every
write the code performs is guarded by the same bounds check as the source,
so positions outside the canvas are never written.
-/

/-- An RGB pixel: (red, green, blue) channel values. -/
abbrev Pix : Type := ℤ × ℤ × ℤ

/-- The numpy image buffer, indexed as img_array[py, px], modelled as a total
function from coordinates (px, py) to pixels. -/
abbrev Buffer : Type := ℤ × ℤ → Pix

/-- Python int() applied to a float: truncation toward zero
(floor for nonnegative arguments, ceiling for negative ones). -/
def pyInt (q : ℚ) : ℤ := if 0 ≤ q then ⌊q⌋ else ⌈q⌉

/-- The bounds check of lines 75 and 88 of the source:
0 <= px < self.width and 0 <= py < self.height. -/
def inCanvas (w h : ℕ) (q : ℤ × ℤ) : Prop :=
  0 ≤ q.1 ∧ q.1 < (w : ℤ) ∧ 0 ≤ q.2 ∧ q.2 < (h : ℤ)

instance (w h : ℕ) (q : ℤ × ℤ) : Decidable (inCanvas w h q) := by
  unfold inCanvas; infer_instance

/-- Point update of the buffer: img_array[py, px] = v. -/
def setPix (buf : Buffer) (p : ℤ × ℤ) (v : Pix) : Buffer :=
  fun q => if q = p then v else buf q

/-- The value a spike write stores: all three channels become
min(255, current_red + spike_val) (lines 79–80 and 93–94); the written
pixel is achromatic. -/
def spikeWrite (cur : Pix) (sv : ℤ) : Pix :=
  (min 255 (cur.1 + sv), min 255 (cur.1 + sv), min 255 (cur.1 + sv))

/-- One body of the spike loops (lines 72–80 and 85–94): writes spikeWrite
at (px, py) when it is inside the canvas, otherwise skips silently. -/
def applySpikePixel (w h : ℕ) (buf : Buffer) (px py : ℤ) (sv : ℤ) : Buffer :=
  if inCanvas w h (px, py) then
    setPix buf (px, py) (spikeWrite (buf (px, py)) sv)
  else buf

/-- Python range(1, L) as a list of integers: [1, 2, …, L−1]. -/
def stepList (L : ℤ) : List ℤ :=
  (List.range (L - 1).toNat).map (fun n : ℕ => (n : ℤ) + 1)

/-- The inner loop of the spike pass along a single direction d:
steps i = 1, …, L−1, writing spike value sv i at (x + d.1*i, y + d.2*i). -/
def rayFold (w h : ℕ) (x y : ℤ) (d : ℤ × ℤ) (sv : ℤ → ℤ) (L : ℤ)
    (buf : Buffer) : Buffer :=
  (stepList L).foldl
    (fun acc i => applySpikePixel w h acc (x + d.1 * i) (y + d.2 * i) (sv i)) buf

/-- The outer loop of the spike pass over a list of directions. -/
def spikeRays (w h : ℕ) (x y : ℤ) (dirs : List (ℤ × ℤ)) (sv : ℤ → ℤ) (L : ℤ)
    (buf : Buffer) : Buffer :=
  dirs.foldl (fun acc d => rayFold w h x y d sv L acc) buf

/-- The cardinal directions of line 70. -/
def cardinalDirs : List (ℤ × ℤ) := [(1, 0), (-1, 0), (0, 1), (0, -1)]

/-- The diagonal directions of line 83. -/
def diagonalDirs : List (ℤ × ℤ) := [(1, 1), (-1, 1), (1, -1), (-1, -1)]

/-- Line 68, base_intensity = int(brightness / 10.0 * 255), and line 49,
intensity = int((brightness / 10.0) * 255): the same expression. -/
def spikeBaseIntensity (b : ℚ) : ℤ := pyInt (b / 10 * 255)

/-- Line 49 of draw_star: intensity = int((brightness / 10.0) * 255). -/
def starIntensity (b : ℚ) : ℤ := pyInt (b / 10 * 255)

/-- StarfieldGenerator.draw_diffraction_spikes (lines 64–94).

spike_intensity = (brightness - 9) / 1.0, base_intensity =
int(brightness / 10.0 * 255), spike_length = int(8 + (brightness - 9) * 12);
cardinal rays use steps range(1, spike_length) with fade
1 - i / spike_length; when brightness > 9.5 diagonal rays use steps
range(1, spike_length // 2) with fade 1 - i / (spike_length // 2) and the
value additionally multiplied by 0.5 before the int(⋅).  The integer
division spike_length // 2 is Python floor division; spike_length is
nonnegative on every reachable path, where it agrees with the division
on ℤ used here. -/
def draw_diffraction_spikes (w h : ℕ) (buf : Buffer) (x y : ℤ) (b : ℚ) :
    Buffer :=
  if b ≤ 9 then buf
  else
    let si : ℚ := (b - 9) / 1
    let base : ℤ := spikeBaseIntensity b
    let L : ℤ := pyInt (8 + (b - 9) * 12)
    let buf1 := spikeRays w h x y cardinalDirs
      (fun i => pyInt ((base : ℚ) * si * (1 - (i : ℚ) / (L : ℚ)))) L buf
    if 19/2 < b then
      spikeRays w h x y diagonalDirs
        (fun i => pyInt ((base : ℚ) * si * (1 - (i : ℚ) / ((L / 2 : ℤ) : ℚ)) * (1/2)))
        (L / 2) buf1
    else buf1

/-- The body of the spike pass of generate (lines 110–112): each star is
submitted to the compositor only when its brightness exceeds 8. -/
def spikePassStep (w h : ℕ) (buf : Buffer) (s : ℤ × ℤ × ℚ) : Buffer :=
  if 8 < s.2.2 then draw_diffraction_spikes w h buf s.1 s.2.1 s.2.2 else buf

/-- Pass 2 of generate: fold the spike compositor over the star list. -/
def spikePass (w h : ℕ) (stars : List (ℤ × ℤ × ℚ)) (buf : Buffer) : Buffer :=
  stars.foldl (spikePassStep w h) buf

/-- Squared euclidean distance between a pixel and a centre. -/
def dist2 (x y : ℤ) (q : ℤ × ℤ) : ℤ := (q.1 - x) ^ 2 + (q.2 - y) ^ 2

/-- Modelled from the spec: the PIL ImageDraw.point primitive (an external
library collaborator, not part of this repository).  Draws the single pixel
(x, y), clipped to the canvas. -/
def drawPoint (w h : ℕ) (canvas : Buffer) (x y : ℤ) (c : Pix) : Buffer :=
  fun q => if q = (x, y) ∧ inCanvas w h q then c else canvas q

/-- Modelled from the spec: the PIL ImageDraw.ellipse primitive with fill,
for the bounding box [x−r, y−r, x+r, y+r] (an external library
collaborator).  Per the spec it fills the disc of radius r: the pixels
whose squared distance from (x, y) is at most r², clipped to the canvas. -/
def fillDisc (w h : ℕ) (canvas : Buffer) (x y r : ℤ) (c : Pix) : Buffer :=
  fun q => if dist2 x y q ≤ r ^ 2 ∧ inCanvas w h q then c else canvas q

/-- Modelled from the spec: the PIL ImageDraw.ellipse primitive with
outline only (no fill) for the bounding box of radius rOut (an external
library collaborator).  Per the spec it draws an unfilled ring: pixels
strictly outside the disc of radius rIn and inside the disc of radius
rOut, clipped to the canvas. -/
def outlineRing (w h : ℕ) (canvas : Buffer) (x y rIn rOut : ℤ) (c : Pix) :
    Buffer :=
  fun q =>
    if rIn ^ 2 < dist2 x y q ∧ dist2 x y q ≤ rOut ^ 2 ∧ inCanvas w h q then c
    else canvas q

/-- StarfieldGenerator.draw_star (lines 48–62): brightness below 3 draws a
single point; below 6 a filled disc of radius 1; otherwise a filled disc of
radius int(brightness / 5), plus, when brightness exceeds 8, an outline
ring one pixel larger at half intensity (integer-divided by 2). -/
def draw_star (w h : ℕ) (canvas : Buffer) (x y : ℤ) (b : ℚ) : Buffer :=
  let intensity := starIntensity b
  let color : Pix := (intensity, intensity, intensity)
  if b < 3 then drawPoint w h canvas x y color
  else if b < 6 then fillDisc w h canvas x y 1 color
  else
    let radius := pyInt (b / 5)
    let c1 := fillDisc w h canvas x y radius color
    if 8 < b then
      outlineRing w h c1 x y radius (radius + 1)
        (intensity / 2, intensity / 2, intensity / 2)
    else c1

/-- The footprint claimed for draw_star, written from the claim: a single
pixel for brightness below 3; the 3×3 footprint centred at (x, y) for
brightness in [3, 6); for brightness at least 6 the disc of radius
⌊brightness / 5⌋ together with, when brightness exceeds 8, the one-pixel
larger ring. -/
def starFootprint (x y : ℤ) (b : ℚ) (q : ℤ × ℤ) : Prop :=
  if b < 3 then q = (x, y)
  else if b < 6 then |q.1 - x| ≤ 1 ∧ |q.2 - y| ≤ 1
  else
    dist2 x y q ≤ ⌊b / 5⌋ ^ 2 ∨ (8 < b ∧ dist2 x y q ≤ (⌊b / 5⌋ + 1) ^ 2)

/-- Error outcomes of StarfieldGenerator.parse_background: the ValueError
of line 26 (invalid hex colour length), the ValueError raised by int(_, 16)
on a non-hexadecimal digit (lines 21–23), and the ValueError of line 34
(background image loading, an external collaborator outside the core). -/
inductive BgError
  | invalidHexColor : BgError
  | invalidHexDigit : BgError
  | imageLoad : BgError
deriving DecidableEq

/-- Numeric value of one hexadecimal digit, as accepted by Python
int(_, 16) for single characters. -/
def hexDigitVal (c : Char) : Option ℕ :=
  if '0' ≤ c ∧ c ≤ '9' then some (c.toNat - '0'.toNat)
  else if 'a' ≤ c ∧ c ≤ 'f' then some (c.toNat - 'a'.toNat + 10)
  else if 'A' ≤ c ∧ c ≤ 'F' then some (c.toNat - 'A'.toNat + 10)
  else none

/-- Python int(s, 16) for a two-character slice, as used on lines 21–23. -/
def hexPairVal (c1 c0 : Char) : Option ℕ :=
  match hexDigitVal c1, hexDigitVal c0 with
  | some d1, some d0 => some (16 * d1 + d0)
  | _, _ => none

/-- StarfieldGenerator.parse_background (lines 16–34), on the hex-colour
path.  The Python string is modelled as a list of characters.  A string
starting with a hash sign has all leading hash signs stripped
(str.lstrip); when exactly six characters remain they are parsed as three
hexadecimal channel pairs and a solid (width, height) image of that colour
is returned (Image.new of line 24, modelled by its dimensions and fill
colour); otherwise the ValueError of line 26 is raised.  A string not
starting with a hash sign goes to the external image-loading branch. -/
def parse_background (w h : ℕ) (bg : List Char) : Except BgError (ℕ × ℕ × Pix) :=
  if bg.head? = some '#' then
    let hex := bg.dropWhile (fun c => c = '#')
    match hex with
    | [a1, a0, b1, b0, c1, c0] =>
      match hexPairVal a1 a0, hexPairVal b1 b0, hexPairVal c1 c0 with
      | some r, some g, some bl => Except.ok (w, h, ((r : ℤ), (g : ℤ), (bl : ℤ)))
      | _, _, _ => Except.error BgError.invalidHexDigit
    | _ => Except.error BgError.invalidHexColor
  else Except.error BgError.imageLoad

/-- StarfieldGenerator.generate_star_brightness (lines 36–46), over the
reals: with x_min = 1.0, x_max = 10.0, alpha = 5/2, the draw r in [0, 1)
is mapped through the analytic inverse CDF of the bounded Pareto
distribution.  The unused first draw u of line 37 is dropped here; the
random stream is accounted for in generate_stars below. -/
noncomputable def generate_star_brightness (r : ℝ) : ℝ :=
  let x_min : ℝ := 1
  let x_max : ℝ := 10
  let alpha : ℝ := 5 / 2
  (x_min ^ (-alpha + 1) + r * (x_max ^ (-alpha + 1) - x_min ^ (-alpha + 1))) ^
    (1 / (-alpha + 1))

/-- The brightness formula exactly as the spec writes it, with the
exponents in the form 1 − α: used to compare the source definition against
the specification text. -/
noncomputable def specBrightness (r : ℝ) : ℝ :=
  ((1 : ℝ) ^ ((1 : ℝ) - 5/2) +
      r * ((10 : ℝ) ^ ((1 : ℝ) - 5/2) - (1 : ℝ) ^ ((1 : ℝ) - 5/2))) ^
    ((1 : ℝ) / (1 - 5/2))

/-- The random stream feeding generate (lines 99–106): nats feeds the
random.randint calls in order, reals feeds the random.random calls in
order.  Each loop iteration k consumes nats (2k) for x, nats (2k+1) for y,
and two real draws inside generate_star_brightness: reals (2k), the unused
u of line 37, and reals (2k+1), the r of line 43. -/
structure RandomSource where
  nats : ℕ → ℕ
  reals : ℕ → ℝ

/-- The sampling loop of StarfieldGenerator.generate (lines 99–106):
num_stars = int(width * height * density) stars, each with
x = random.randint(0, width − 1), y = random.randint(0, height − 1) and
brightness from generate_star_brightness; the whole list is built before
either rendering pass runs (lines 107–112 consume it afterwards).
random.randint(0, n − 1) is modelled through its contract, a draw in
[0, n − 1], realised as nats k % n. -/
noncomputable def generate_stars (w h : ℕ) (density : ℚ) (src : RandomSource) :
    List (ℕ × ℕ × ℝ) :=
  (List.range (pyInt (((w * h : ℕ) : ℚ) * density)).toNat).map (fun k =>
    (src.nats (2 * k) % w, src.nats (2 * k + 1) % h,
      generate_star_brightness (src.reals (2 * k + 1))))

/-- A concrete buffer for exercising the compositor on a chromatic pixel:
pixel (21, 20) is pure blue, everything else black. -/
def cexBuf : Buffer := fun q => if q = (21, 20) then (0, 0, 255) else (0, 0, 0)

/-- All six channel bounds of one pixel: every channel in [0, 255]. -/
def pixInRange (v : Pix) : Prop :=
  0 ≤ v.1 ∧ v.1 ≤ 255 ∧ 0 ≤ v.2.1 ∧ v.2.1 ≤ 255 ∧ 0 ≤ v.2.2 ∧ v.2.2 ≤ 255

instance (v : Pix) : Decidable (pixInRange v) := by
  unfold pixInRange; infer_instance

/-! ## Helper lemmas -/

theorem pyInt_eq_floor {q : ℚ} (h : 0 ≤ q) : pyInt q = ⌊q⌋ := if_pos h

theorem pyInt_nonneg {q : ℚ} (h : 0 ≤ q) : 0 ≤ pyInt q := by
  rw [pyInt_eq_floor h]; exact Int.floor_nonneg.mpr h

theorem mem_stepList {L i : ℤ} : i ∈ stepList L ↔ 1 ≤ i ∧ i < L := by
  unfold stepList
  constructor
  · intro hi
    rcases List.mem_map.mp hi with ⟨n, hn, rfl⟩
    have hn2 := List.mem_range.mp hn
    omega
  · rintro ⟨h1, h2⟩
    refine List.mem_map.mpr ⟨(i - 1).toNat, List.mem_range.mpr (by omega), by omega⟩

theorem stepList_nodup (L : ℤ) : (stepList L).Nodup := by
  unfold stepList
  refine List.Nodup.map ?_ (List.nodup_range _)
  intro a b hab
  have hab2 : (a : ℤ) + 1 = (b : ℤ) + 1 := hab
  omega

theorem foldl_inv {α β : Type} (P : α → Prop) (f : α → β → α) (l : List β)
    (a : α) (h : ∀ x b, b ∈ l → P x → P (f x b)) (ha : P a) : P (l.foldl f a) := by
  induction l generalizing a with
  | nil => exact ha
  | cons c t ih =>
    exact ih _ (fun x b hb => h x b (List.mem_cons_of_mem _ hb))
      (h a c (List.mem_cons_self _ _) ha)

theorem applySpikePixel_ne {w h : ℕ} {buf : Buffer} {px py : ℤ} {sv : ℤ}
    {q : ℤ × ℤ} (hq : q ≠ (px, py)) :
    applySpikePixel w h buf px py sv q = buf q := by
  unfold applySpikePixel
  by_cases hc : inCanvas w h (px, py)
  · simp only [if_pos hc, setPix, if_neg hq]
  · simp only [if_neg hc]

theorem applySpikePixel_oob {w h : ℕ} {buf : Buffer} {px py : ℤ} {sv : ℤ}
    {q : ℤ × ℤ} (hq : ¬ inCanvas w h q) :
    applySpikePixel w h buf px py sv q = buf q := by
  by_cases heq : q = (px, py)
  · subst heq
    unfold applySpikePixel
    simp only [if_neg hq]
  · exact applySpikePixel_ne heq

theorem applySpikePixel_hit {w h : ℕ} {buf : Buffer} {px py : ℤ} {sv : ℤ}
    (hc : inCanvas w h (px, py)) :
    applySpikePixel w h buf px py sv (px, py) = spikeWrite (buf (px, py)) sv := by
  simp [applySpikePixel, setPix, hc]

theorem rayFoldList_untouched {w h : ℕ} {x y : ℤ} {d : ℤ × ℤ} {sv : ℤ → ℤ}
    {buf : Buffer} {q : ℤ × ℤ} (l : List ℤ)
    (hq : ∀ i ∈ l, q ≠ (x + d.1 * i, y + d.2 * i)) :
    (l.foldl (fun acc i =>
        applySpikePixel w h acc (x + d.1 * i) (y + d.2 * i) (sv i)) buf) q =
      buf q := by
  induction l generalizing buf with
  | nil => rfl
  | cons a t ih =>
    simp only [List.foldl_cons]
    rw [ih (fun i hi => hq i (List.mem_cons_of_mem _ hi))]
    exact applySpikePixel_ne (hq a (List.mem_cons_self _ _))

theorem rayFold_untouched {w h : ℕ} {x y : ℤ} {d : ℤ × ℤ} {sv : ℤ → ℤ}
    {L : ℤ} {buf : Buffer} {q : ℤ × ℤ}
    (hq : ∀ i : ℤ, 1 ≤ i → i < L → q ≠ (x + d.1 * i, y + d.2 * i)) :
    rayFold w h x y d sv L buf q = buf q := by
  refine rayFoldList_untouched (stepList L) ?_
  intro i hi
  rcases mem_stepList.mp hi with ⟨h1, h2⟩
  exact hq i h1 h2

theorem rayFold_oob {w h : ℕ} {x y : ℤ} {d : ℤ × ℤ} {sv : ℤ → ℤ}
    {L : ℤ} {buf : Buffer} {q : ℤ × ℤ} (hq : ¬ inCanvas w h q) :
    rayFold w h x y d sv L buf q = buf q := by
  unfold rayFold
  induction stepList L generalizing buf with
  | nil => rfl
  | cons a t ih =>
    simp only [List.foldl_cons]
    rw [ih]
    exact applySpikePixel_oob hq

theorem rayFoldList_hit {w h : ℕ} {x y : ℤ} {d : ℤ × ℤ} {sv : ℤ → ℤ}
    {buf : Buffer} {i₀ : ℤ} (l : List ℤ) (hnd : l.Nodup) (hmem : i₀ ∈ l)
    (hinj : ∀ i : ℤ,
      (x + d.1 * i, y + d.2 * i) = (x + d.1 * i₀, y + d.2 * i₀) → i = i₀)
    (hc : inCanvas w h (x + d.1 * i₀, y + d.2 * i₀)) :
    (l.foldl (fun acc i =>
        applySpikePixel w h acc (x + d.1 * i) (y + d.2 * i) (sv i)) buf)
        (x + d.1 * i₀, y + d.2 * i₀) =
      spikeWrite (buf (x + d.1 * i₀, y + d.2 * i₀)) (sv i₀) := by
  induction l generalizing buf with
  | nil => cases hmem
  | cons a t ih =>
    simp only [List.foldl_cons]
    rcases eq_or_ne a i₀ with rfl | hne
    · rw [rayFoldList_untouched t ?later]
      · exact applySpikePixel_hit hc
      case later =>
        intro i hi heq
        have hii := hinj i heq.symm
        subst hii
        exact (List.nodup_cons.mp hnd).1 hi
    · have hmem2 : i₀ ∈ t := by
        rcases List.mem_cons.mp hmem with h | h
        · exact absurd h.symm hne
        · exact h
      rw [ih (List.nodup_cons.mp hnd).2 hmem2]
      rw [applySpikePixel_ne]
      intro heq
      exact hne (hinj a heq.symm)

theorem rayFold_hit {w h : ℕ} {x y : ℤ} {d : ℤ × ℤ} {sv : ℤ → ℤ}
    {L : ℤ} {buf : Buffer} {i₀ : ℤ} (h1 : 1 ≤ i₀) (h2 : i₀ < L)
    (hd : d ≠ (0, 0))
    (hc : inCanvas w h (x + d.1 * i₀, y + d.2 * i₀)) :
    rayFold w h x y d sv L buf (x + d.1 * i₀, y + d.2 * i₀) =
      spikeWrite (buf (x + d.1 * i₀, y + d.2 * i₀)) (sv i₀) := by
  refine rayFoldList_hit (stepList L) (stepList_nodup L)
    (mem_stepList.mpr ⟨h1, h2⟩) ?_ hc
  intro i heq
  rw [Prod.mk.injEq] at heq
  have e1 : d.1 * i = d.1 * i₀ := by omega
  have e2 : d.2 * i = d.2 * i₀ := by omega
  rcases eq_or_ne d.1 0 with hd1 | hd1
  · have hd2 : d.2 ≠ 0 := by
      intro h0
      exact hd (Prod.ext hd1 h0)
    exact mul_left_cancel₀ hd2 e2
  · exact mul_left_cancel₀ hd1 e1

theorem spikeRays_untouched {w h : ℕ} {x y : ℤ} {sv : ℤ → ℤ} {L : ℤ}
    {buf : Buffer} {q : ℤ × ℤ} (dirs : List (ℤ × ℤ))
    (hq : ∀ d ∈ dirs, ∀ i : ℤ, 1 ≤ i → i < L → q ≠ (x + d.1 * i, y + d.2 * i)) :
    spikeRays w h x y dirs sv L buf q = buf q := by
  unfold spikeRays
  induction dirs generalizing buf with
  | nil => rfl
  | cons a t ih =>
    simp only [List.foldl_cons]
    rw [ih (fun d hd => hq d (List.mem_cons_of_mem _ hd))]
    exact rayFold_untouched (hq a (List.mem_cons_self _ _))

theorem spikeRays_oob {w h : ℕ} {x y : ℤ} {sv : ℤ → ℤ} {L : ℤ}
    {buf : Buffer} {q : ℤ × ℤ} (dirs : List (ℤ × ℤ)) (hq : ¬ inCanvas w h q) :
    spikeRays w h x y dirs sv L buf q = buf q := by
  unfold spikeRays
  induction dirs generalizing buf with
  | nil => rfl
  | cons a t ih =>
    simp only [List.foldl_cons]
    rw [ih]
    exact rayFold_oob hq

theorem spikeRays_hit {w h : ℕ} {x y : ℤ} {sv : ℤ → ℤ} {L : ℤ}
    {buf : Buffer} {d₀ : ℤ × ℤ} {i₀ : ℤ} (dirs : List (ℤ × ℤ))
    (hnd : dirs.Nodup) (hmem : d₀ ∈ dirs) (h1 : 1 ≤ i₀) (h2 : i₀ < L)
    (hd₀ : d₀ ≠ (0, 0))
    (huniq : ∀ d ∈ dirs, ∀ i : ℤ, 1 ≤ i → i < L →
      (x + d.1 * i, y + d.2 * i) = (x + d₀.1 * i₀, y + d₀.2 * i₀) → d = d₀)
    (hc : inCanvas w h (x + d₀.1 * i₀, y + d₀.2 * i₀)) :
    spikeRays w h x y dirs sv L buf (x + d₀.1 * i₀, y + d₀.2 * i₀) =
      spikeWrite (buf (x + d₀.1 * i₀, y + d₀.2 * i₀)) (sv i₀) := by
  induction dirs generalizing buf with
  | nil => cases hmem
  | cons a t ih =>
    unfold spikeRays
    simp only [List.foldl_cons]
    rcases eq_or_ne a d₀ with rfl | hne
    · have hrest : spikeRays w h x y t sv L (rayFold w h x y a sv L buf)
          (x + a.1 * i₀, y + a.2 * i₀) =
          (rayFold w h x y a sv L buf) (x + a.1 * i₀, y + a.2 * i₀) := by
        refine spikeRays_untouched t ?_
        intro d hd i hi1 hi2 heq
        have hda := huniq d (List.mem_cons_of_mem _ hd) i hi1 hi2 heq.symm
        subst hda
        exact (List.nodup_cons.mp hnd).1 hd
      show spikeRays w h x y t sv L (rayFold w h x y a sv L buf)
          (x + a.1 * i₀, y + a.2 * i₀) = _
      rw [hrest]
      exact rayFold_hit h1 h2 hd₀ hc
    · have hmem2 : d₀ ∈ t := by
        rcases List.mem_cons.mp hmem with h | h
        · exact absurd h.symm hne
        · exact h
      show spikeRays w h x y t sv L (rayFold w h x y a sv L buf) _ = _
      rw [ih (List.nodup_cons.mp hnd).2 hmem2
        (fun d hd => huniq d (List.mem_cons_of_mem _ hd))]
      rw [rayFold_untouched]
      intro i hi1 hi2 heq
      exact hne (huniq a (List.mem_cons_self _ _) i hi1 hi2 heq.symm)

theorem cardinalDirs_nodup : cardinalDirs.Nodup := by decide

theorem diagonalDirs_nodup : diagonalDirs.Nodup := by decide

theorem cardinal_ne_zero {d : ℤ × ℤ} (hd : d ∈ cardinalDirs) : d ≠ (0, 0) := by
  fin_cases hd <;> decide

theorem diagonal_ne_zero {d : ℤ × ℤ} (hd : d ∈ diagonalDirs) : d ≠ (0, 0) := by
  fin_cases hd <;> decide

theorem cardinal_unique_dir {x y : ℤ} {d d₀ : ℤ × ℤ}
    (hd : d ∈ cardinalDirs) (hd₀ : d₀ ∈ cardinalDirs) {i i₀ : ℤ}
    (h1 : 1 ≤ i) (h2 : 1 ≤ i₀)
    (heq : (x + d.1 * i, y + d.2 * i) = (x + d₀.1 * i₀, y + d₀.2 * i₀)) :
    d = d₀ := by
  fin_cases hd <;> fin_cases hd₀ <;> simp_all <;> omega

theorem diagonal_unique_dir {x y : ℤ} {d d₀ : ℤ × ℤ}
    (hd : d ∈ diagonalDirs) (hd₀ : d₀ ∈ diagonalDirs) {i i₀ : ℤ}
    (h1 : 1 ≤ i) (h2 : 1 ≤ i₀)
    (heq : (x + d.1 * i, y + d.2 * i) = (x + d₀.1 * i₀, y + d₀.2 * i₀)) :
    d = d₀ := by
  fin_cases hd <;> fin_cases hd₀ <;> simp_all <;> omega

theorem cardinal_diag_ne {x y : ℤ} {c e : ℤ × ℤ}
    (hc : c ∈ cardinalDirs) (he : e ∈ diagonalDirs) {i j : ℤ}
    (h1 : 1 ≤ i) (h2 : 1 ≤ j) :
    (x + c.1 * i, y + c.2 * i) ≠ (x + e.1 * j, y + e.2 * j) := by
  intro heq
  fin_cases hc <;> fin_cases he <;> simp_all

theorem spikeLength_floor {b : ℚ} (hb : 9 < b) :
    pyInt (8 + (b - 9) * 12) = ⌊8 + (b - 9) * 12⌋ :=
  pyInt_eq_floor (by nlinarith)

theorem spikeLength_ge8 {b : ℚ} (hb : 9 < b) : 8 ≤ ⌊8 + (b - 9) * 12⌋ := by
  refine Int.le_floor.mpr ?_
  push_cast
  nlinarith

theorem spikeBase_floor {b : ℚ} (hb : 0 ≤ b) :
    spikeBaseIntensity b = ⌊b / 10 * 255⌋ :=
  pyInt_eq_floor (mul_nonneg (div_nonneg hb (by norm_num)) (by norm_num))

theorem floor_cast_nonneg {q : ℚ} (h : 0 ≤ q) : (0 : ℚ) ≤ ((⌊q⌋ : ℤ) : ℚ) := by
  exact_mod_cast Int.floor_nonneg.mpr h

/-- Nonnegativity of the cardinal per-step spike value. -/
theorem cardinal_sv_nonneg {b : ℚ} (hb : 9 < b) {i Lz : ℤ} (h1 : 1 ≤ i)
    (h2 : i < Lz) :
    (0 : ℚ) ≤ ((⌊b / 10 * 255⌋ : ℤ) : ℚ) * (b - 9) * (1 - (i : ℚ) / (Lz : ℚ)) := by
  have hb0 : (0 : ℚ) ≤ b := by linarith
  have hbase : (0 : ℚ) ≤ ((⌊b / 10 * 255⌋ : ℤ) : ℚ) :=
    floor_cast_nonneg (mul_nonneg (div_nonneg hb0 (by norm_num)) (by norm_num))
  have hLpos : (0 : ℚ) < (Lz : ℚ) := by
    have : (0 : ℤ) < Lz := by omega
    exact_mod_cast this
  have hfade : (0 : ℚ) ≤ 1 - (i : ℚ) / (Lz : ℚ) := by
    rw [sub_nonneg]
    exact div_le_one_of_le₀ (by exact_mod_cast le_of_lt h2) (le_of_lt hLpos)
  exact mul_nonneg (mul_nonneg hbase (by linarith)) hfade

/-- Exact per-pixel description of the cardinal spike pass, shared by the
cardinal-ray claim and the monotonicity counterexample. -/
theorem spikes_cardinal_main (w h : ℕ) (buf : Buffer) (x y : ℤ) (b : ℚ)
    (hb : 9 < b) (d : ℤ × ℤ) (hd : d ∈ cardinalDirs) (i : ℤ) (h1 : 1 ≤ i)
    (h2 : i < ⌊8 + (b - 9) * 12⌋) :
    (inCanvas w h (x + d.1 * i, y + d.2 * i) →
      draw_diffraction_spikes w h buf x y b (x + d.1 * i, y + d.2 * i) =
        spikeWrite (buf (x + d.1 * i, y + d.2 * i))
          ⌊((⌊b / 10 * 255⌋ : ℤ) : ℚ) * (b - 9) *
            (1 - (i : ℚ) / ((⌊8 + (b - 9) * 12⌋ : ℤ) : ℚ))⌋) ∧
    ∀ q : ℤ × ℤ, ¬ inCanvas w h q →
      draw_diffraction_spikes w h buf x y b q = buf q := by
  have hnle : ¬ b ≤ 9 := not_le.mpr hb
  have hb0 : (0 : ℚ) ≤ b := by linarith
  constructor
  · intro hcv
    simp only [draw_diffraction_spikes, if_neg hnle, spikeLength_floor hb,
      spikeBase_floor hb0, div_one]
    have hhit :
        spikeRays w h x y cardinalDirs
          (fun j => pyInt (((⌊b / 10 * 255⌋ : ℤ) : ℚ) * (b - 9) *
            (1 - (j : ℚ) / ((⌊8 + (b - 9) * 12⌋ : ℤ) : ℚ))))
          ⌊8 + (b - 9) * 12⌋ buf (x + d.1 * i, y + d.2 * i) =
          spikeWrite (buf (x + d.1 * i, y + d.2 * i))
            (pyInt (((⌊b / 10 * 255⌋ : ℤ) : ℚ) * (b - 9) *
              (1 - (i : ℚ) / ((⌊8 + (b - 9) * 12⌋ : ℤ) : ℚ)))) := by
      refine spikeRays_hit cardinalDirs cardinalDirs_nodup hd h1 h2
        (cardinal_ne_zero hd) ?_ hcv
      intro d2 hd2 i2 h1b h2b heq
      exact cardinal_unique_dir hd2 hd h1b h1 heq
    by_cases hb2 : (19/2 : ℚ) < b
    · rw [if_pos hb2]
      rw [spikeRays_untouched diagonalDirs ?_]
      · rw [hhit, pyInt_eq_floor (cardinal_sv_nonneg hb h1 h2)]
      · intro e he j hj1 hj2
        exact cardinal_diag_ne hd he h1 hj1
    · rw [if_neg hb2]
      rw [hhit, pyInt_eq_floor (cardinal_sv_nonneg hb h1 h2)]
  · intro q hq
    simp only [draw_diffraction_spikes, if_neg hnle]
    by_cases hb2 : (19/2 : ℚ) < b
    · rw [if_pos hb2, spikeRays_oob diagonalDirs hq, spikeRays_oob cardinalDirs hq]
    · rw [if_neg hb2, spikeRays_oob cardinalDirs hq]

/-- C2 — for brightness above 9, along each cardinal direction and each
step i in [1, spikeLength − 1] with spikeLength = ⌊8 + (brightness − 9)·12⌋,
the compositor sets the in-bounds pixel (x + dx·i, y + dy·i) to the
achromatic triple min(255, current red + ⌊baseIntensity · (brightness − 9) ·
(1 − i / spikeLength)⌋), and any out-of-canvas position is skipped
(left unchanged). -/
theorem spikes_cardinal_exact (w h : ℕ) (buf : Buffer) (x y : ℤ) (b : ℚ)
    (hb : 9 < b) (d : ℤ × ℤ) (hd : d ∈ cardinalDirs) (i : ℤ) (h1 : 1 ≤ i)
    (h2 : i < ⌊8 + (b - 9) * 12⌋) :
    (inCanvas w h (x + d.1 * i, y + d.2 * i) →
      draw_diffraction_spikes w h buf x y b (x + d.1 * i, y + d.2 * i) =
        spikeWrite (buf (x + d.1 * i, y + d.2 * i))
          ⌊((⌊b / 10 * 255⌋ : ℤ) : ℚ) * (b - 9) *
            (1 - (i : ℚ) / ((⌊8 + (b - 9) * 12⌋ : ℤ) : ℚ))⌋) ∧
    ∀ q : ℤ × ℤ, ¬ inCanvas w h q →
      draw_diffraction_spikes w h buf x y b q = buf q :=
  spikes_cardinal_main w h buf x y b hb d hd i h1 h2

/-- C5 — for brightness above 9.5, the diagonal rays receive the same
additive process with diagonalLength = spikeLength // 2 steps, fade
relative to diagonalLength, and the per-step value multiplied by 0.5 before
flooring; for brightness at most 9.5 no strictly diagonal pixel changes. -/
theorem spikes_diagonal_exact (w h : ℕ) (buf : Buffer) (x y : ℤ) (b : ℚ)
    (e : ℤ × ℤ) (he : e ∈ diagonalDirs) (j : ℤ) (hj1 : 1 ≤ j) :
    (19/2 < b → j < ⌊8 + (b - 9) * 12⌋ / 2 →
      inCanvas w h (x + e.1 * j, y + e.2 * j) →
      draw_diffraction_spikes w h buf x y b (x + e.1 * j, y + e.2 * j) =
        spikeWrite (buf (x + e.1 * j, y + e.2 * j))
          ⌊((⌊b / 10 * 255⌋ : ℤ) : ℚ) * (b - 9) *
            (1 - (j : ℚ) / ((⌊8 + (b - 9) * 12⌋ / 2 : ℤ) : ℚ)) * (1/2)⌋) ∧
    (b ≤ 19/2 →
      draw_diffraction_spikes w h buf x y b (x + e.1 * j, y + e.2 * j) =
        buf (x + e.1 * j, y + e.2 * j)) := by
  constructor
  · intro hb2 hj2 hcv
    have hb : (9 : ℚ) < b := lt_trans (by norm_num) hb2
    have hnle : ¬ b ≤ 9 := not_le.mpr hb
    have hb0 : (0 : ℚ) ≤ b := by linarith
    simp only [draw_diffraction_spikes, if_neg hnle, spikeLength_floor hb,
      spikeBase_floor hb0, div_one, if_pos hb2]
    rw [spikeRays_hit diagonalDirs diagonalDirs_nodup he hj1 hj2
      (diagonal_ne_zero he) ?_ hcv]
    · rw [spikeRays_untouched cardinalDirs ?_]
      · rw [pyInt_eq_floor
          (mul_nonneg (cardinal_sv_nonneg hb hj1 hj2) (by norm_num))]
      · intro c hc i hi1 hi2
        exact (cardinal_diag_ne hc he hi1 hj1).symm
    · intro e2 he2 j2 hj1b hj2b heq
      exact diagonal_unique_dir he2 he hj1b hj1 heq
  · intro hble
    by_cases hle9 : b ≤ 9
    · simp only [draw_diffraction_spikes, if_pos hle9]
    · have hb : (9 : ℚ) < b := not_le.mp hle9
      simp only [draw_diffraction_spikes, if_neg hle9, if_neg (not_lt.mpr hble)]
      refine spikeRays_untouched cardinalDirs ?_
      intro c hc i hi1 hi2
      exact (cardinal_diag_ne hc he hi1 hj1).symm

theorem sv_cardinal_nonneg {b : ℚ} (hb : 9 < b) {Lz i : ℤ} (h1 : 1 ≤ i)
    (h2 : i < Lz) :
    0 ≤ pyInt ((spikeBaseIntensity b : ℚ) * ((b - 9) / 1) *
      (1 - (i : ℚ) / (Lz : ℚ))) := by
  rw [spikeBase_floor (by linarith), div_one]
  exact pyInt_nonneg (cardinal_sv_nonneg hb h1 h2)

theorem sv_diagonal_nonneg {b : ℚ} (hb : 9 < b) {Lz j : ℤ} (h1 : 1 ≤ j)
    (h2 : j < Lz) :
    0 ≤ pyInt ((spikeBaseIntensity b : ℚ) * ((b - 9) / 1) *
      (1 - (j : ℚ) / (Lz : ℚ)) * (1/2)) := by
  rw [spikeBase_floor (by linarith), div_one]
  exact pyInt_nonneg (mul_nonneg (cardinal_sv_nonneg hb h1 h2) (by norm_num))

theorem applySpikePixel_inv {w h : ℕ} {buf acc : Buffer} {px py sv : ℤ}
    (hsv : 0 ≤ sv)
    (hinv : ∀ p, pixInRange (acc p) ∧ (buf p).1 ≤ (acc p).1) :
    ∀ p, pixInRange (applySpikePixel w h acc px py sv p) ∧
      (buf p).1 ≤ (applySpikePixel w h acc px py sv p).1 := by
  intro p
  by_cases hp : p = (px, py)
  · subst hp
    by_cases hcv : inCanvas w h (px, py)
    · rw [applySpikePixel_hit hcv]
      rcases hinv (px, py) with ⟨⟨r0, r255, g0, g255, u0, u255⟩, hm⟩
      unfold spikeWrite pixInRange
      refine ⟨⟨?_, ?_, ?_, ?_, ?_, ?_⟩, ?_⟩
      · exact le_min (by norm_num) (by linarith)
      · exact min_le_left _ _
      · exact le_min (by norm_num) (by linarith)
      · exact min_le_left _ _
      · exact le_min (by norm_num) (by linarith)
      · exact min_le_left _ _
      · exact le_trans hm (le_min r255 (by linarith))
    · rw [applySpikePixel_oob hcv]
      exact hinv _
  · rw [applySpikePixel_ne hp]
    exact hinv p

theorem rayFold_inv {w h : ℕ} {x y : ℤ} {d : ℤ × ℤ} {sv : ℤ → ℤ} {L : ℤ}
    {buf acc : Buffer}
    (hsv : ∀ i : ℤ, 1 ≤ i → i < L → 0 ≤ sv i)
    (hinv : ∀ p, pixInRange (acc p) ∧ (buf p).1 ≤ (acc p).1) :
    ∀ p, pixInRange (rayFold w h x y d sv L acc p) ∧
      (buf p).1 ≤ (rayFold w h x y d sv L acc p).1 := by
  unfold rayFold
  refine foldl_inv (fun a : Buffer => ∀ p, pixInRange (a p) ∧ (buf p).1 ≤ (a p).1)
    _ _ _ ?_ hinv
  intro a i hi hP
  rcases mem_stepList.mp hi with ⟨h1, h2⟩
  exact applySpikePixel_inv (hsv i h1 h2) hP

theorem spikeRays_inv {w h : ℕ} {x y : ℤ} {sv : ℤ → ℤ} {L : ℤ}
    {buf acc : Buffer} (dirs : List (ℤ × ℤ))
    (hsv : ∀ i : ℤ, 1 ≤ i → i < L → 0 ≤ sv i)
    (hinv : ∀ p, pixInRange (acc p) ∧ (buf p).1 ≤ (acc p).1) :
    ∀ p, pixInRange (spikeRays w h x y dirs sv L acc p) ∧
      (buf p).1 ≤ (spikeRays w h x y dirs sv L acc p).1 := by
  unfold spikeRays
  refine foldl_inv (fun a : Buffer => ∀ p, pixInRange (a p) ∧ (buf p).1 ≤ (a p).1)
    _ _ _ ?_ hinv
  intro a e he hP
  exact rayFold_inv hsv hP

/-- range preservation and red-channel monotonicity of the whole
compositor, shared by the range and monotonicity claims. -/
theorem spikes_inv_main (w h : ℕ) (buf : Buffer) (x y : ℤ) (b : ℚ)
    (hbuf : ∀ p, pixInRange (buf p)) :
    ∀ p, pixInRange (draw_diffraction_spikes w h buf x y b p) ∧
      (buf p).1 ≤ (draw_diffraction_spikes w h buf x y b p).1 := by
  by_cases hle : b ≤ 9
  · simp only [draw_diffraction_spikes, if_pos hle]
    exact fun p => ⟨hbuf p, le_refl _⟩
  · have hb : (9 : ℚ) < b := not_le.mp hle
    simp only [draw_diffraction_spikes, if_neg hle]
    have base_inv : ∀ p, pixInRange (buf p) ∧ (buf p).1 ≤ (buf p).1 :=
      fun p => ⟨hbuf p, le_refl _⟩
    by_cases hb2 : (19/2 : ℚ) < b
    · rw [if_pos hb2]
      exact spikeRays_inv diagonalDirs
        (fun j h1 h2 => sv_diagonal_nonneg hb h1 h2)
        (spikeRays_inv cardinalDirs
          (fun i h1 h2 => sv_cardinal_nonneg hb h1 h2) base_inv)
    · rw [if_neg hb2]
      exact spikeRays_inv cardinalDirs
        (fun i h1 h2 => sv_cardinal_nonneg hb h1 h2) base_inv

/-- C6 — channel range invariant: starting from a buffer whose channels
all lie in [0, 255], every channel of every pixel still lies in [0, 255]
after the compositor runs, for every brightness (clamping via min 255). -/
theorem spikes_channels_in_range (w h : ℕ) (buf : Buffer) (x y : ℤ) (b : ℚ)
    (hbuf : ∀ p, pixInRange (buf p)) :
    ∀ p, pixInRange (draw_diffraction_spikes w h buf x y b p) :=
  fun p => (spikes_inv_main w h buf x y b hbuf p).1

/-- Witness for C6 on a concrete chromatic buffer and brightness 9.8. -/
theorem spikes_channels_in_range_witness :
    (∀ p : ℤ × ℤ, pixInRange ((fun _ => ((10 : ℤ), 20, 250)) p)) ∧
    ∀ p, pixInRange
      (draw_diffraction_spikes 6 6 (fun _ => (10, 20, 250)) 2 2 (49/5) p) :=
  ⟨fun p => by norm_num [pixInRange],
   spikes_channels_in_range 6 6 (fun _ => (10, 20, 250)) 2 2 (49/5)
     (fun p => by norm_num [pixInRange])⟩

/-- C7 (amended) — the compositor never decreases the red channel: for
every buffer with channels in [0, 255], every position, every brightness
and every pixel, the red channel after the call is at least its value
before.  (The green and blue channels are overwritten with the red-based
value, so they can decrease on chromatic pixels; see the
counterexample.) -/
theorem spikes_red_monotone (w h : ℕ) (buf : Buffer) (x y : ℤ) (b : ℚ)
    (hbuf : ∀ p, pixInRange (buf p)) :
    ∀ p, (buf p).1 ≤ (draw_diffraction_spikes w h buf x y b p).1 :=
  fun p => (spikes_inv_main w h buf x y b hbuf p).2

/-- Witness for the amended C7 on a concrete buffer and brightness 9.8. -/
theorem spikes_red_monotone_witness :
    (∀ p : ℤ × ℤ, pixInRange ((fun _ => ((10 : ℤ), 20, 250)) p)) ∧
    ∀ p, ((fun _ => ((10 : ℤ), 20, 250) : Buffer) p).1 ≤
      (draw_diffraction_spikes 6 6 (fun _ => (10, 20, 250)) 2 2 (49/5) p).1 :=
  ⟨fun p => by norm_num [pixInRange],
   spikes_red_monotone 6 6 (fun _ => (10, 20, 250)) 2 2 (49/5)
     (fun p => by norm_num [pixInRange])⟩

/-- Counterexample to C7 as stated: on the buffer cexBuf, whose pixel
(21, 20) is pure blue (0, 0, 255), running the compositor at (20, 20) with
brightness 9.5 rewrites that pixel from the red channel, dropping its blue
channel from 255 to 112: the call does not only additively brighten. -/
theorem spikes_not_monotone_cex :
    (draw_diffraction_spikes 40 40 cexBuf 20 20 (19/2) (21, 20)).2.2 <
      (cexBuf (21, 20)).2.2 := by
  have hfl : ⌊8 + ((19:ℚ)/2 - 9) * 12⌋ = (14 : ℤ) := by
    rw [Int.floor_eq_iff]
    norm_num
  have hkey := (spikes_cardinal_main 40 40 cexBuf 20 20 (19/2) (by norm_num)
    (1, 0) (by decide) 1 le_rfl (by rw [hfl]; norm_num)).1 (by decide)
  have hpos : ((21:ℤ), (20:ℤ)) =
      ((20:ℤ) + ((1:ℤ), (0:ℤ)).1 * 1, (20:ℤ) + ((1:ℤ), (0:ℤ)).2 * 1) := by
    norm_num
  rw [hpos, hkey]
  norm_num [spikeWrite, cexBuf]

/-- C4 (amended) — both the glyph intensity of draw_star (line 49) and the
base intensity of the spike compositor (line 68) equal
int(brightness / 10 * 255), which truncates toward zero: for nonnegative
brightness this is the floor of brightness / 10 × 255, not the nearest
integer. -/
theorem intensity_eq_floor (b : ℚ) (hb : 0 ≤ b) :
    starIntensity b = ⌊b / 10 * 255⌋ ∧ spikeBaseIntensity b = ⌊b / 10 * 255⌋ :=
  ⟨pyInt_eq_floor (mul_nonneg (div_nonneg hb (by norm_num)) (by norm_num)),
   spikeBase_floor hb⟩

/-- Witness for the amended C4 at brightness 3. -/
theorem intensity_eq_floor_witness :
    (0 : ℚ) ≤ 3 ∧
    (starIntensity 3 = ⌊(3 : ℚ) / 10 * 255⌋ ∧
      spikeBaseIntensity 3 = ⌊(3 : ℚ) / 10 * 255⌋) :=
  ⟨by norm_num, intensity_eq_floor 3 (by norm_num)⟩

/-- Counterexample to C4 as stated: at brightness 2.7 the code computes
int(2.7 / 10 * 255) = int(68.85) = 68, while the nearest integer (round)
is 69. -/
theorem intensity_not_round_cex :
    starIntensity (27/10) ≠ round ((27 : ℚ)/10 / 10 * 255) := by
  have h1 : starIntensity (27/10) = 68 := by
    unfold starIntensity pyInt
    rw [if_pos (by norm_num), Int.floor_eq_iff]
    norm_num
  have h2 : round ((27 : ℚ)/10 / 10 * 255) = 69 := by
    rw [round_eq, Int.floor_eq_iff]
    norm_num
  rw [h1, h2]
  decide

/-- C9 — frame property of draw_star: every pixel outside the
brightness-tier footprint (single pixel below 3, the 3×3 footprint below 6,
the disc of radius ⌊brightness/5⌋ plus, above 8, the one-pixel-larger
ring) is left unchanged. -/
theorem draw_star_frame (w h : ℕ) (canvas : Buffer) (x y : ℤ) (b : ℚ)
    (q : ℤ × ℤ) (hq : ¬ starFootprint x y b q) :
    draw_star w h canvas x y b q = canvas q := by
  unfold starFootprint at hq
  simp only [draw_star]
  by_cases h3 : b < 3
  · rw [if_pos h3] at hq
    rw [if_pos h3]
    exact if_neg (fun hc => hq hc.1)
  · rw [if_neg h3] at hq
    rw [if_neg h3]
    by_cases h6 : b < 6
    · rw [if_pos h6] at hq
      rw [if_pos h6]
      refine if_neg (fun hc => hq ?_)
      rcases hc with ⟨hd, _⟩
      unfold dist2 at hd
      constructor
      · rw [abs_le]
        constructor <;> nlinarith [sq_nonneg (q.2 - y)]
      · rw [abs_le]
        constructor <;> nlinarith [sq_nonneg (q.1 - x)]
    · rw [if_neg h6] at hq
      rw [if_neg h6]
      have hb0 : (0 : ℚ) ≤ b / 5 :=
        div_nonneg (by linarith [not_lt.mp h6]) (by norm_num)
      rw [pyInt_eq_floor hb0]
      rcases not_or.mp hq with ⟨hq1, hq2⟩
      by_cases h8 : 8 < b
      · rw [if_pos h8]
        unfold outlineRing
        rw [if_neg (fun hc => hq2 ⟨h8, hc.2.1⟩)]
        exact if_neg (fun hc => hq1 hc.1)
      · rw [if_neg h8]
        exact if_neg (fun hc => hq1 hc.1)

/-- Witness for C9: brightness 7, star at (5, 5), pixel (0, 0) is outside
the radius-1 footprint and is untouched. -/
theorem draw_star_frame_witness :
    ¬ starFootprint 5 5 7 (0, 0) ∧
    draw_star 10 10 (fun _ => (0, 0, 0)) 5 5 7 (0, 0) = (0, 0, 0) := by
  have hfp : ¬ starFootprint 5 5 7 (0, 0) := by
    unfold starFootprint
    rw [if_neg (by norm_num), if_neg (by norm_num)]
    have hfl : ⌊(7 : ℚ) / 5⌋ = (1 : ℤ) := by
      rw [Int.floor_eq_iff]
      norm_num
    rw [hfl]
    unfold dist2
    norm_num
  exact ⟨hfp, draw_star_frame 10 10 (fun _ => (0, 0, 0)) 5 5 7 (0, 0) hfp⟩

/-- Witness for C2: brightness 9.5, direction (1, 0), step 1 on a black
buffer; spikeLength is 14 and pixel (21, 20) receives the spike value. -/
theorem spikes_cardinal_exact_witness :
    ((9 : ℚ) < 19/2 ∧ ((1 : ℤ), (0 : ℤ)) ∈ cardinalDirs ∧
      (1 : ℤ) < ⌊8 + ((19 : ℚ)/2 - 9) * 12⌋ ∧ inCanvas 40 40 (21, 20)) ∧
    draw_diffraction_spikes 40 40 (fun _ => (0, 0, 0)) 20 20 (19/2) (21, 20) =
      spikeWrite ((0, 0, 0) : Pix)
        ⌊((⌊(19 : ℚ)/2 / 10 * 255⌋ : ℤ) : ℚ) * ((19 : ℚ)/2 - 9) *
          (1 - ((1 : ℤ) : ℚ) / ((⌊8 + ((19 : ℚ)/2 - 9) * 12⌋ : ℤ) : ℚ))⌋ := by
  have hfl : ⌊8 + ((19 : ℚ)/2 - 9) * 12⌋ = (14 : ℤ) := by
    rw [Int.floor_eq_iff]
    norm_num
  refine ⟨⟨by norm_num, by decide, by rw [hfl]; norm_num, by decide⟩, ?_⟩
  exact (spikes_cardinal_exact 40 40 (fun _ => (0, 0, 0)) 20 20 (19/2)
    (by norm_num) (1, 0) (by decide) 1 le_rfl (by rw [hfl]; norm_num)).1
    (by decide)

/-- Witness for C5: brightness 9.8, diagonal (1, 1), step 1 on a black
buffer; spikeLength is 17, diagonalLength 8, and pixel (21, 21) receives
the halved spike value. -/
theorem spikes_diagonal_exact_witness :
    ((19/2 : ℚ) < 49/5 ∧ ((1 : ℤ), (1 : ℤ)) ∈ diagonalDirs ∧
      (1 : ℤ) < ⌊8 + ((49 : ℚ)/5 - 9) * 12⌋ / 2 ∧ inCanvas 40 40 (21, 21)) ∧
    draw_diffraction_spikes 40 40 (fun _ => (0, 0, 0)) 20 20 (49/5) (21, 21) =
      spikeWrite ((0, 0, 0) : Pix)
        ⌊((⌊(49 : ℚ)/5 / 10 * 255⌋ : ℤ) : ℚ) * ((49 : ℚ)/5 - 9) *
          (1 - ((1 : ℤ) : ℚ) / ((⌊8 + ((49 : ℚ)/5 - 9) * 12⌋ / 2 : ℤ) : ℚ)) *
          (1/2)⌋ := by
  have hfl : ⌊8 + ((49 : ℚ)/5 - 9) * 12⌋ = (17 : ℤ) := by
    rw [Int.floor_eq_iff]
    norm_num
  refine ⟨⟨by norm_num, by decide, by rw [hfl]; decide, by decide⟩, ?_⟩
  exact (spikes_diagonal_exact 40 40 (fun _ => (0, 0, 0)) 20 20 (49/5)
    (1, 1) (by decide) 1 le_rfl).1 (by norm_num) (by rw [hfl]; decide)
    (by decide)

/-- C3 — the sampler returns exactly the bounded-Pareto inverse CDF of the
spec with α = 2.5, x_min = 1, x_max = 10, and for every uniform draw
r in [0, 1) the returned brightness lies in [1, 10]. -/
theorem brightness_formula_range (r : ℝ) (h0 : 0 ≤ r) (h1 : r < 1) :
    generate_star_brightness r = specBrightness r ∧
    1 ≤ generate_star_brightness r ∧ generate_star_brightness r ≤ 10 := by
  have hbr : generate_star_brightness r =
      (1 + r * ((10 : ℝ) ^ ((-3/2 : ℝ)) - 1)) ^ ((-2/3 : ℝ)) := by
    simp only [generate_star_brightness]
    rw [show (-(5/2 : ℝ) + 1) = (-3/2 : ℝ) by norm_num]
    rw [show (1 : ℝ) / (-3/2 : ℝ) = (-2/3 : ℝ) by norm_num]
    simp only [Real.one_rpow]
  have hspec : specBrightness r =
      (1 + r * ((10 : ℝ) ^ ((-3/2 : ℝ)) - 1)) ^ ((-2/3 : ℝ)) := by
    unfold specBrightness
    rw [show ((1 : ℝ) - 5/2) = (-3/2 : ℝ) by norm_num]
    rw [show (1 : ℝ) / (-3/2 : ℝ) = (-2/3 : ℝ) by norm_num]
    simp only [Real.one_rpow]
  have hc_pos : (0 : ℝ) < (10 : ℝ) ^ ((-3/2 : ℝ)) :=
    Real.rpow_pos_of_pos (by norm_num) _
  have hc_lt1 : (10 : ℝ) ^ ((-3/2 : ℝ)) < 1 :=
    Real.rpow_lt_one_of_one_lt_of_neg (by norm_num) (by norm_num)
  refine ⟨hbr.trans hspec.symm, ?_, ?_⟩
  · rw [hbr]
    have ht_pos : 0 < 1 + r * ((10 : ℝ) ^ ((-3/2 : ℝ)) - 1) := by nlinarith
    have ht_le1 : 1 + r * ((10 : ℝ) ^ ((-3/2 : ℝ)) - 1) ≤ 1 := by nlinarith
    exact Real.one_le_rpow_of_pos_of_le_one_of_nonpos ht_pos ht_le1 (by norm_num)
  · rw [hbr]
    have ht_gt : (10 : ℝ) ^ ((-3/2 : ℝ)) <
        1 + r * ((10 : ℝ) ^ ((-3/2 : ℝ)) - 1) := by
      nlinarith [mul_pos (sub_pos.mpr hc_lt1) (sub_pos.mpr h1)]
    have hmono := Real.rpow_le_rpow_of_nonpos hc_pos (le_of_lt ht_gt)
      (by norm_num : (-2/3 : ℝ) ≤ 0)
    have hc10 : ((10 : ℝ) ^ ((-3/2 : ℝ))) ^ ((-2/3 : ℝ)) = 10 := by
      rw [← Real.rpow_mul (by norm_num : (0 : ℝ) ≤ 10)]
      norm_num
    rw [hc10] at hmono
    exact hmono

/-- Witness for C3 at the draw r = 0, where the brightness is exactly 1. -/
theorem brightness_formula_range_witness :
    (0 : ℝ) ≤ 0 ∧ (0 : ℝ) < 1 ∧
    (generate_star_brightness 0 = specBrightness 0 ∧
      1 ≤ generate_star_brightness 0 ∧ generate_star_brightness 0 ≤ 10) :=
  ⟨le_rfl, by norm_num, brightness_formula_range 0 le_rfl (by norm_num)⟩

/-- C8 — generate samples exactly int(width · height · density) =
⌊width · height · density⌋ stars (density nonnegative), stores the whole
list before either drawing pass, and star k has x = nats(2k) mod width in
[0, width), y = nats(2k+1) mod height in [0, height), and brightness drawn
through generate_star_brightness. -/
theorem generate_stars_spec (w h : ℕ) (density : ℚ) (src : RandomSource)
    (hw : 0 < w) (hh : 0 < h) (hd : 0 ≤ density) :
    (generate_stars w h density src).length =
      (⌊((w * h : ℕ) : ℚ) * density⌋).toNat ∧
    (∀ s ∈ generate_stars w h density src, s.1 < w ∧ s.2.1 < h) ∧
    (∀ k : ℕ, k < (generate_stars w h density src).length →
      (generate_stars w h density src)[k]? =
        some (src.nats (2 * k) % w, src.nats (2 * k + 1) % h,
          generate_star_brightness (src.reals (2 * k + 1)))) := by
  have hlen : (generate_stars w h density src).length =
      (⌊((w * h : ℕ) : ℚ) * density⌋).toNat := by
    unfold generate_stars
    rw [List.length_map, List.length_range,
      pyInt_eq_floor (mul_nonneg (by positivity) hd)]
  refine ⟨hlen, ?_, ?_⟩
  · intro s hs
    unfold generate_stars at hs
    rcases List.mem_map.mp hs with ⟨k, hk, rfl⟩
    exact ⟨Nat.mod_lt _ hw, Nat.mod_lt _ hh⟩
  · intro k hk
    unfold generate_stars at hk ⊢
    rw [List.length_map, List.length_range] at hk
    rw [List.getElem?_map, List.getElem?_range hk]
    rfl

/-- Witness for C8: a 100 × 100 canvas at density 0.05 samples
⌊100·100·(1/20)⌋ = 500 stars. -/
theorem generate_stars_spec_witness :
    0 < 100 ∧ (0 : ℚ) ≤ 1/20 ∧
    (generate_stars 100 100 (1/20) ⟨fun _ => 0, fun _ => 0⟩).length =
      (⌊((100 * 100 : ℕ) : ℚ) * (1/20)⌋).toNat :=
  ⟨by norm_num, by norm_num,
   (generate_stars_spec 100 100 (1/20) ⟨fun _ => 0, fun _ => 0⟩
     (by norm_num) (by norm_num) (by norm_num)).1⟩

theorem replicate_hash_head {n : ℕ} (hn : 1 ≤ n) (s : List Char) :
    (List.replicate n '#' ++ s).head? = some '#' := by
  cases n with
  | zero => omega
  | succ m => simp [List.replicate_succ]

theorem dropWhile_hash (s : List Char) (hs : s.head? ≠ some '#') (n : ℕ) :
    (List.replicate n '#' ++ s).dropWhile (fun c => c = '#') = s := by
  induction n with
  | zero =>
    simp only [List.replicate, List.nil_append]
    cases s with
    | nil => rfl
    | cons a t =>
      have ha : a ≠ '#' := by
        intro hEq
        exact hs (by simp [hEq])
      simp [List.dropWhile_cons, ha]
  | succ m ih =>
    simp only [List.replicate_succ, List.cons_append, List.dropWhile_cons]
    rw [if_pos (by simp)]
    exact ih

theorem hexDigitVal_hash : hexDigitVal '#' = none := by decide

/-- C10 — parse_background accepts one or more leading hash signs followed
by exactly six hexadecimal digits (all leading hash signs are stripped
before the length-6 check) and returns the width × height solid canvas of
that colour; a hash-prefixed string whose stripped remainder does not have
exactly six characters raises the ValueError of line 26. -/
theorem parse_background_hex (w h n : ℕ) (hn : 1 ≤ n)
    (a1 a0 b1 b0 c1 c0 : Char) (r g bl : ℕ)
    (h1 : hexPairVal a1 a0 = some r) (h2 : hexPairVal b1 b0 = some g)
    (h3 : hexPairVal c1 c0 = some bl) :
    parse_background w h (List.replicate n '#' ++ [a1, a0, b1, b0, c1, c0]) =
      Except.ok (w, h, ((r : ℤ), (g : ℤ), (bl : ℤ))) ∧
    ∀ s : List Char, s.head? ≠ some '#' → s.length ≠ 6 →
      parse_background w h (List.replicate n '#' ++ s) =
        Except.error BgError.invalidHexColor := by
  have ha : a1 ≠ '#' := by
    intro hEq
    subst hEq
    unfold hexPairVal at h1
    rw [hexDigitVal_hash] at h1
    simp at h1
  constructor
  · unfold parse_background
    rw [if_pos (replicate_hash_head hn _),
      dropWhile_hash [a1, a0, b1, b0, c1, c0] (by simp [ha]) n]
    show (match hexPairVal a1 a0, hexPairVal b1 b0, hexPairVal c1 c0 with
      | some rr, some gg, some bb =>
          Except.ok (w, h, ((rr : ℤ), (gg : ℤ), (bb : ℤ)))
      | _, _, _ => Except.error BgError.invalidHexDigit) =
      Except.ok (w, h, ((r : ℤ), (g : ℤ), (bl : ℤ)))
    rw [h1, h2, h3]
  · intro s hs hlen
    unfold parse_background
    rw [if_pos (replicate_hash_head hn s), dropWhile_hash s hs n]
    rcases s with _ | ⟨x1, _ | ⟨x2, _ | ⟨x3, _ | ⟨x4, _ | ⟨x5, _ | ⟨x6, _ | ⟨x7, t⟩⟩⟩⟩⟩⟩⟩
    · rfl
    · rfl
    · rfl
    · rfl
    · rfl
    · rfl
    · exact absurd (by simp) hlen
    · rfl

/-- Witness for C10: the string with two leading hash signs and digits
00ff00 parses to pure green; the two-character remainder ab raises the
invalid-hex-colour error. -/
theorem parse_background_hex_witness :
    hexPairVal '0' '0' = some 0 ∧ hexPairVal 'f' 'f' = some 255 ∧
    parse_background 100 100
        (List.replicate 2 '#' ++ ['0', '0', 'f', 'f', '0', '0']) =
      Except.ok (100, 100, ((0 : ℤ), (255 : ℤ), (0 : ℤ))) ∧
    parse_background 100 100 (List.replicate 2 '#' ++ ['a', 'b']) =
      Except.error BgError.invalidHexColor := by
  have h00 : hexPairVal '0' '0' = some 0 := by decide
  have hff : hexPairVal 'f' 'f' = some 255 := by decide
  have hmain := parse_background_hex 100 100 2 (by norm_num)
    '0' '0' 'f' 'f' '0' '0' 0 255 0 h00 hff h00
  exact ⟨h00, hff, hmain.1, hmain.2 ['a', 'b'] (by decide) (by decide)⟩

/-- C1 — brightness at most 9 makes draw_diffraction_spikes the identity
(lines 65–66), and the pass-2 loop body of generate, which additionally
gates on brightness > 8 (lines 110–112), leaves the buffer unchanged for
any such star: the net effective spike threshold is brightness > 9, and a
whole pass over stars of brightness at most 9 changes no pixel. -/
theorem spikes_noop_of_le9 (w h : ℕ) (buf : Buffer) (x y : ℤ) (b : ℚ)
    (hb : b ≤ 9) :
    draw_diffraction_spikes w h buf x y b = buf ∧
    spikePassStep w h buf (x, y, b) = buf ∧
    ∀ stars : List (ℤ × ℤ × ℚ), (∀ s ∈ stars, s.2.2 ≤ 9) →
      spikePass w h stars buf = buf := by
  have hnoop : ∀ (buf2 : Buffer) (x2 y2 : ℤ) (b2 : ℚ), b2 ≤ 9 →
      draw_diffraction_spikes w h buf2 x2 y2 b2 = buf2 := by
    intro buf2 x2 y2 b2 hb2
    unfold draw_diffraction_spikes
    rw [if_pos hb2]
  have hstep : ∀ (buf2 : Buffer) (s : ℤ × ℤ × ℚ), s.2.2 ≤ 9 →
      spikePassStep w h buf2 s = buf2 := by
    intro buf2 s hs
    unfold spikePassStep
    by_cases h8 : 8 < s.2.2
    · rw [if_pos h8]
      exact hnoop buf2 s.1 s.2.1 s.2.2 hs
    · rw [if_neg h8]
  refine ⟨hnoop buf x y b hb, hstep buf (x, y, b) hb, ?_⟩
  intro stars hstars
  induction stars generalizing buf with
  | nil => rfl
  | cons s t ih =>
    show spikePass w h t (spikePassStep w h buf s) = buf
    rw [hstep buf s (hstars s (List.mem_cons_self _ _))]
    exact ih buf (fun s2 hs2 => hstars s2 (List.mem_cons_of_mem _ hs2))

/-- Witness for C1 at brightness 9 on a concrete buffer: the compositor,
the gated pass body, and a pass over one such star all leave it unchanged. -/
theorem spikes_noop_of_le9_witness :
    (9 : ℚ) ≤ 9 ∧
    draw_diffraction_spikes 4 4 (fun _ => (0, 0, 0)) 1 1 9 =
      (fun _ => ((0 : ℤ), (0 : ℤ), (0 : ℤ))) :=
  ⟨le_refl 9, (spikes_noop_of_le9 4 4 (fun _ => (0, 0, 0)) 1 1 9 (le_refl 9)).1⟩
